import Mathlib

/-!
Shallow embedding of `src/diagrams/c4/__init__.py`, the C4-model helper
constructors of this repository, together with the parts of the Python
standard library (`html.escape`, `textwrap.TextWrapper`) that the module's
formatting behaviour is defined by.  The external `diagrams` collaborators
(`Node`, `Edge`, `Cluster`) are opaque consumers of attribute bundles, so a
builder is embedded as the attribute bundle it passes to its collaborator.
-/

namespace C4

/-- Total length of a list of strings (`sum(map(len, cur_line))`). -/
def sumLen (l : List String) : Nat := (l.map String.length).sum

/-- The six ASCII whitespace characters of `textwrap._whitespace`
(`'\t\n\x0b\x0c\r '`). -/
def wsChar (c : Char) : Bool :=
  c = '\t' || c = '\n' || c = '\x0b' || c = '\x0c' || c = '\r' || c = ' '

/-- Python `str` whitespace, the set used by `str.strip()` / `str.rstrip()`:
the ASCII whitespace and separator controls plus the Unicode space
characters. -/
def pyIsSpace (c : Char) : Bool :=
  let n := c.toNat
  (9 ≤ n && n ≤ 13) || (28 ≤ n && n ≤ 32) || n = 133 || n = 160 ||
  n = 5760 || (8192 ≤ n && n ≤ 8202) || n = 8232 || n = 8233 ||
  n = 8239 || n = 8287 || n = 12288

/-- Python `s.strip() == ''`: the string consists of whitespace only. -/
def isBlank (s : String) : Bool := s.data.all pyIsSpace

/-- Python `str.rstrip()`. -/
def rstripStr (s : String) : String :=
  String.mk (s.data.reverse.dropWhile pyIsSpace).reverse

/-- One character of `html.escape` (with `quote=True`): the five sequential
`str.replace` calls of the standard library are equivalent to this
character-wise map because no replacement output contains a character that a
later replacement rewrites. -/
def escChar (c : Char) : String :=
  if c = '&' then "&amp;"
  else if c = '<' then "&lt;"
  else if c = '>' then "&gt;"
  else if c = Char.ofNat 34 then "&quot;"
  else if c = Char.ofNat 39 then "&#x27;"
  else String.mk [c]

/-- Python `html.escape(s, quote=True)`. -/
def htmlEscape (s : String) : String := String.join (s.data.map escChar)

/-- Python `str.expandtabs(8)`: a tab advances the column to the next
multiple of 8; newline and carriage return reset the column. -/
def pyExpandTabs : List Char → Nat → List Char
  | [], _ => []
  | c :: cs, col =>
    if c = '\t' then
      let n := 8 - col % 8
      List.replicate n ' ' ++ pyExpandTabs cs (col + n)
    else if c = '\n' || c = '\r' then c :: pyExpandTabs cs 0
    else c :: pyExpandTabs cs (col + 1)

/-- Method `TextWrapper._munge_whitespace` with the default options: expand tabs,
then replace each of the six ASCII whitespace characters by a space. -/
def munge (s : String) : List Char :=
  (pyExpandTabs s.data 0).map (fun c => if wsChar c then ' ' else c)

/-- The `\w` class of `re`, as used in `textwrap.wordsep_re`.  ASCII
behaviour is exact (alphanumerics and underscore); characters beyond ASCII
are approximated as word characters unless they are whitespace, which
agrees with Python on all letters and digits and on every input this
repository's formatting claims are decided on. -/
def isWordChar (c : Char) : Bool :=
  c.isAlphanum || c = '_' || (128 ≤ c.toNat && !(pyIsSpace c))

/-- The `letter` class `[^\d\W]` of `textwrap.wordsep_re`: a word character
that is not a digit. -/
def isLetterCls (c : Char) : Bool := isWordChar c && !(c.isDigit)

/-- The `word_punct` class of `textwrap.wordsep_re`:
a word character or one of the punctuation marks in the class. -/
def isWordPunct (c : Char) : Bool :=
  isWordChar c || c = '!' || c = Char.ofNat 34 || c = Char.ofNat 39 ||
  c = '&' || c = '.' || c = ',' || c = '?'

/-- Character of the text at a given index, if in range. -/
def chAt (t : List Char) (i : Nat) : Option Char := t.get? i

/-- The predicate holds of the character at index `i` (false out of range,
as for a regex lookaround that runs off the text). -/
def isAt (t : List Char) (i : Nat) (p : Char → Bool) : Bool :=
  match chAt t i with
  | some c => p c
  | none => false

/-- Length of the maximal run of hyphens starting at index `i`. -/
def hyphenRun (t : List Char) (i : Nat) : Nat :=
  ((t.drop i).takeWhile (fun c => c = '-')).length

/-- Length of the maximal run of `textwrap` whitespace starting at `i`. -/
def wsRunLen (t : List Char) (i : Nat) : Nat :=
  ((t.drop i).takeWhile wsChar).length

/-- The lookahead `(?= letter -? letter)` of the hyphenated-word branch of
`wordsep_re`, tested at index `m`. -/
def lookaheadLt (t : List Char) (m : Nat) : Bool :=
  isAt t m isLetterCls &&
    (isAt t (m + 1) isLetterCls ||
      (isAt t (m + 1) (fun c => c = '-') && isAt t (m + 2) isLetterCls))

/-- The hyphenated-word branch of `wordsep_re` succeeding at boundary `j`
(the hyphen position): consume the hyphen at `j` when the lookbehind
`(?<=letter letter -)` or `(?<=letter - letter -)` and the lookahead
`(?= letter -? letter)` hold. -/
def hyphenBoundary (t : List Char) (j : Nat) : Bool :=
  isAt t j (fun c => c = '-') &&
  ((2 ≤ j && isAt t (j - 2) isLetterCls && isAt t (j - 1) isLetterCls) ||
   (3 ≤ j && isAt t (j - 3) isLetterCls && isAt t (j - 2) (fun c => c = '-') &&
      isAt t (j - 1) isLetterCls)) &&
  lookaheadLt t (j + 1)

/-- The em-dash lookahead branch `(?<=word_punct)(?=-{2,}\w)` of the word
alternative of `wordsep_re`, tested at boundary `j`. -/
def emDashAhead (t : List Char) (j : Nat) : Bool :=
  1 ≤ j && isAt t (j - 1) isWordPunct &&
    (let r := hyphenRun t j
     2 ≤ r && isAt t (j + r) isWordChar)

/-- End position of the word alternative `nws+? (...)` of `wordsep_re`
starting at `i`, with `k` characters (all non-whitespace) already consumed:
the lazy quantifier tries the three tail alternatives at each length in
pattern order before consuming another character. -/
def wordEnd (t : List Char) (i : Nat) : Nat → Nat → Option Nat
  | _, 0 => none
  | k, fuel + 1 =>
    let j := i + k
    if hyphenBoundary t j then some (j + 1)
    else if t.length ≤ j || isAt t j wsChar then some j
    else if emDashAhead t j then some j
    else if isAt t j (fun c => !(wsChar c)) then wordEnd t i (k + 1) fuel
    else none

/-- The em-dash alternative `(?<=word_punct) -{2,} (?=\w)` of `wordsep_re`
matching at position `i`; on success the whole hyphen run is consumed. -/
def emDashAt (t : List Char) (i : Nat) : Bool :=
  1 ≤ i && isAt t (i - 1) isWordPunct &&
    (let r := hyphenRun t i
     2 ≤ r && isAt t (i + r) isWordChar)

/-- Leftmost match of `wordsep_re` starting exactly at `i`: the end
position of the match, trying the three alternatives in pattern order. -/
def tryMatch (t : List Char) (i : Nat) : Option Nat :=
  match chAt t i with
  | none => none
  | some c =>
    if wsChar c then some (i + wsRunLen t i)
    else if emDashAt t i then some (i + hyphenRun t i)
    else wordEnd t i 1 (t.length + 1)

/-- The split `wordsep_re.split` of the whole text (every position starts a match, so
the split is exactly the list of matches; empty chunks cannot arise). -/
def splitLoop (t : List Char) : Nat → Nat → List String
  | _, 0 => []
  | i, fuel + 1 =>
    if i < t.length then
      match tryMatch t i with
      | some e =>
        if i < e then
          String.mk ((t.drop i).take (e - i)) :: splitLoop t e fuel
        else [String.mk (t.drop i)]
      | none => [String.mk (t.drop i)]
    else []

/-- Method `TextWrapper._split_chunks` with the default options: munge whitespace,
then split into word-wrappable chunks. -/
def splitChunksStr (s : String) : List String :=
  let t := munge s
  splitLoop t 0 (t.length + 1)

/-- The default `TextWrapper.placeholder`, appended to the last line of
truncated text. -/
def placeholder : String := " [...]"

/-- The stripped placeholder `placeholder.lstrip()`. -/
def placeholderStripped : String := "[...]"

/-- The greedy chunk-taking loop of `_wrap_chunks`: squeeze chunks onto the
current line while the accumulated length stays within the width.  Returns
the taken chunks and the remaining ones. -/
def greedyTake (w : Nat) : List String → Nat → List String × List String
  | [], _ => ([], [])
  | c :: cs, len =>
    if len + c.length ≤ w then
      let p := greedyTake w cs (len + c.length)
      (c :: p.1, p.2)
    else ([], c :: cs)

/-- Index of the last hyphen of a character list (`str.rfind('-')` on the
prefix that was passed in), if any. -/
def lastHyphenIdx : List Char → Option Nat
  | [] => none
  | c :: cs =>
    match lastHyphenIdx cs with
    | some k => some (k + 1)
    | none => if c = '-' then some 0 else none

/-- Method `TextWrapper._handle_long_word` with the default options
(`break_long_words=True`, `break_on_hyphens=True`): split the chunk so that
as much as fits goes onto the current line, preferring to break right after
the last hyphen that lies in the available space and is preceded by some
non-hyphen character. -/
def handleLongWord (w curLen : Nat) (chunk : String) : String × String :=
  let spaceLeft := if w < 1 then 1 else w - curLen
  let e :=
    if spaceLeft < chunk.length then
      match lastHyphenIdx (chunk.data.take spaceLeft) with
      | some h =>
        if 0 < h && (chunk.data.take h).any (fun c => !(c = '-')) then h + 1
        else spaceLeft
      | none => spaceLeft
    else spaceLeft
  (String.mk (chunk.data.take e), String.mk (chunk.data.drop e))

/-- Dropping a leading whitespace chunk at the start of a line (only once a
line has already been produced), as in `_wrap_chunks`. -/
def dropLead (dl : Bool) : List String → List String
  | [] => []
  | c :: cs => if dl && isBlank c then cs else c :: cs

/-- The long-word handling step of `_wrap_chunks`: when the next chunk is
longer than the whole width, break it via `_handle_long_word`. -/
def longWordAdjust (w : Nat) : List String × List String →
    List String × List String
  | (cur, []) => (cur, [])
  | (cur, c :: cs) =>
    if w < c.length then
      let hl := handleLongWord w (sumLen cur) c
      (cur ++ [hl.1], hl.2 :: cs)
    else (cur, c :: cs)

/-- Dropping a trailing whitespace chunk from the current line, as in
`_wrap_chunks`. -/
def dropTrailingBlank : List String × List String →
    List String × List String
  | (cur, rest) =>
    match cur.getLast? with
    | some lastC => if isBlank lastC then (cur.dropLast, rest) else (cur, rest)
    | none => (cur, rest)

/-- One line-building step of `_wrap_chunks`: drop a leading whitespace
chunk (when a line has already been produced), greedily take chunks, break
a too-long next chunk, and drop a trailing whitespace chunk.  Returns the
chunks of the current line and the remaining chunks. -/
def buildLine (w : Nat) (dropLeading : Bool) (chunks : List String) :
    List String × List String :=
  dropTrailingBlank (longWordAdjust w (greedyTake w (dropLead dropLeading chunks) 0))

/-- Joining `''.join(cur_line)` (the indents are empty under the default options). -/
def lineOf (cur : List String) : String := String.join cur

/-- The inner popping loop of the truncation branch of `_wrap_chunks`,
acting on the reversed current line: drop trailing chunks until the last
one is non-blank and the line plus placeholder fits the width. -/
def popFitRev (w : Nat) : List String → Option (List String)
  | [] => none
  | c :: cs =>
    if !(isBlank c) && sumLen (c :: cs) + placeholder.length ≤ w then
      some (c :: cs)
    else popFitRev w cs

/-- The truncation branch of `_wrap_chunks` (reached when the line limit is
hit): append the placeholder to what fits of the current line, or else
attach it to the previous line, or else emit the stripped placeholder
alone. -/
def truncateLines (w : Nat) (lines cur : List String) : List String :=
  match popFitRev w cur.reverse with
  | some rev => lines ++ [lineOf (rev.reverse ++ [placeholder])]
  | none =>
    match lines.getLast? with
    | some last =>
      let prev := rstripStr last
      if prev.length + placeholder.length ≤ w then
        lines.dropLast ++ [prev ++ placeholder]
      else lines ++ [placeholderStripped]
    | none => lines ++ [placeholderStripped]

/-- The append decision of `_wrap_chunks` for a non-empty current line:
with no line limit always append; under a limit, append when a further line
is still allowed, or when the remaining chunks are gone or a single
whitespace chunk and the line fits. -/
def appendOk (w : Nat) (maxLines : Option Nat) (lines rest cur : List String) :
    Bool :=
  match maxLines with
  | none => true
  | some m =>
    lines.length + 1 < m ||
      ((rest.isEmpty || (rest.length = 1 && isBlank (rest.headD ""))) &&
        sumLen cur ≤ w)

/-- The main loop of `TextWrapper._wrap_chunks` under the default options
(empty indents, `drop_whitespace=True`, `break_long_words=True`), with the
line limit as an optional parameter; `fuel` bounds the iteration count (the
callers below always supply enough). -/
def wrapLoop (w : Nat) (maxLines : Option Nat) :
    Nat → List String → List String → List String
  | 0, _, lines => lines
  | fuel + 1, chunks, lines =>
    match chunks with
    | [] => lines
    | c :: cs =>
      let b := buildLine w (!(lines.isEmpty)) (c :: cs)
      if b.1.isEmpty then wrapLoop w maxLines fuel b.2 lines
      else if appendOk w maxLines lines b.2 b.1 then
        wrapLoop w maxLines fuel b.2 (lines ++ [lineOf b.1])
      else truncateLines w lines b.1

/-- The call `TextWrapper(width=w, max_lines=maxLines).wrap(text)` under the default
remaining options. -/
def wrapText (w : Nat) (maxLines : Option Nat) (text : String) : List String :=
  let chunks := splitChunksStr text
  wrapLoop w maxLines (sumLen chunks + chunks.length + 1) chunks []

/-- Joining with the markup line break, as in `"<br/>".join(lines)`. -/
def brJoin : List String → String
  | [] => ""
  | [x] => x
  | x :: y :: xs => x ++ "<br/>" ++ brJoin (y :: xs)

/-- The padding step of `_format_description` (line 28 of the source):
`lines += [""] * (3 - len(lines))`. -/
def padToThree (xs : List String) : List String :=
  xs ++ List.replicate (3 - xs.length) ""

/-- The wrapped-and-escaped line list of `_format_description`: wrap the
description with `TextWrapper(width=40, max_lines=3)`, escape each line,
pad with empty lines so it is always three. -/
def formatDescriptionLines (description : String) : List String :=
  padToThree ((wrapText 40 (some 3) description).map htmlEscape)

/-- Function `_format_description` of the source module. -/
def formatDescription (description : String) : String :=
  brJoin (formatDescriptionLines description)

/-- Function `_format_node_label(name, key, description)` of the source module. -/
def formatNodeLabel (name key description : String) : String :=
  let title := "<font point-size=\"12\"><b>" ++ htmlEscape name ++
    "</b></font><br/>"
  let subtitle :=
    if key = "" then ""
    else "<font point-size=\"9\">[" ++ htmlEscape key ++ "]<br/></font>"
  let text :=
    if description = "" then ""
    else "<br/><font point-size=\"10\">" ++ formatDescription description ++
      "</font>"
  "<" ++ title ++ subtitle ++ text ++ ">"

/-- Function `_format_edge_label(description)` of the source module. -/
def formatEdgeLabel (description : String) : String :=
  let text := brJoin ((wrapText 24 (some 3) description).map htmlEscape)
  "<<font point-size=\"10\">" ++ text ++ "</font>>"

/-- An attribute bundle as handed to the external `Node`/`Edge` collaborator:
key-value pairs in Python dict insertion order. -/
abbrev Attrs := List (String × String)

/-- Setting one key of a Python dict: replace the value in place when the
key is present, else append the pair at the end. -/
def setAttr : Attrs → String → String → Attrs
  | [], k, v => [(k, v)]
  | (k', v') :: rest, k, v =>
    if k' = k then (k, v) :: rest else (k', v') :: setAttr rest k v

/-- Python `dict.update`: last-write-wins merge of the overrides into the base. -/
def update (base kwargs : Attrs) : Attrs :=
  kwargs.foldl (fun a p => setAttr a p.1 p.2) base

/-- Dict lookup on an attribute bundle. -/
def getAttr (a : Attrs) (k : String) : Option String :=
  (a.find? (fun p => p.1 = k)).map (fun p => p.2)

/-- The keys of the caller-supplied overrides. -/
def keysOf (kwargs : Attrs) : List String := kwargs.map (fun p => p.1)

/-- Builder `Container(name, technology="", description="", **kwargs)`: the
attribute bundle passed to the external `Node` constructor. -/
def Container (name technology description : String) (kwargs : Attrs) :
    Attrs :=
  let key :=
    if technology = "" then "Container" else "Container: " ++ technology
  update
    [("label", formatNodeLabel name key description), ("labelloc", "c"),
     ("shape", "rect"), ("width", "2.6"), ("height", "1.6"),
     ("fixedsize", "true"), ("style", "filled"),
     ("fillcolor", "dodgerblue3"), ("fontcolor", "white")] kwargs

/-- Builder `Database(name, technology="", description="", **kwargs)`: the
attribute bundle passed to the external `Node` constructor (note: no
`labelloc` entry in the source). -/
def Database (name technology description : String) (kwargs : Attrs) :
    Attrs :=
  let key :=
    if technology = "" then "Database" else "Database: " ++ technology
  update
    [("label", formatNodeLabel name key description), ("shape", "cylinder"),
     ("width", "2.6"), ("height", "1.6"), ("fixedsize", "true"),
     ("style", "filled"), ("fillcolor", "dodgerblue3"),
     ("fontcolor", "white")] kwargs

/-- Builder `System(name, description="", external=False, **kwargs)`: the attribute
bundle passed to the external `Node` constructor, with the empty-description
collapse applied before the caller overrides. -/
def System (name description : String) (ext : Bool) (kwargs : Attrs) :
    Attrs :=
  let key := if ext then "External System" else "System"
  let base :=
    [("label", formatNodeLabel name key description), ("labelloc", "c"),
     ("shape", "rect"), ("width", "2.6"), ("height", "1.6"),
     ("fixedsize", "true"), ("style", "filled"),
     ("fillcolor", if ext then "gray60" else "dodgerblue4"),
     ("fontcolor", "white")]
  let base :=
    if description = "" then update base [("width", "2"), ("height", "1")]
    else base
  update base kwargs

/-- Builder `Person(name, description="", external=False, **kwargs)`: the attribute
bundle passed to the external `Node` constructor, with the empty-description
collapse applied before the caller overrides. -/
def Person (name description : String) (ext : Bool) (kwargs : Attrs) :
    Attrs :=
  let key := if ext then "External Person" else "Person"
  let base :=
    [("label", formatNodeLabel name key description), ("labelloc", "c"),
     ("shape", "rect"), ("width", "2.6"), ("height", "1.6"),
     ("fixedsize", "true"), ("style", "rounded,filled"),
     ("fillcolor", if ext then "gray60" else "dodgerblue4"),
     ("fontcolor", "white")]
  let base :=
    if description = "" then update base [("width", "2"), ("height", "1")]
    else base
  update base kwargs

/-- The external `Cluster` collaborator's view of a boundary: the raw first
constructor argument and the `graph_attr` bundle. -/
structure Cluster where
  clusterName : String
  graphAttr : Attrs
deriving DecidableEq

/-- Builder `SystemBoundary(name, **kwargs)`: `Cluster(name, graph_attr=...)` with
the escaped name as the label of the attribute bundle. -/
def SystemBoundary (name : String) (kwargs : Attrs) : Cluster :=
  { clusterName := name
    graphAttr :=
      update
        [("label", htmlEscape name), ("bgcolor", "white"), ("margin", "16"),
         ("style", "dashed")] kwargs }

/-- Builder `Relationship(label="", **kwargs)`: the attribute bundle passed to the
external `Edge` constructor; the label entry is added only for a non-empty
description. -/
def Relationship (label : String) (kwargs : Attrs) : Attrs :=
  let e := [("style", "dashed"), ("color", "gray60")]
  let e :=
    if label = "" then e else update e [("label", formatEdgeLabel label)]
  update e kwargs

/-! Helper predicates used only to state the claims. -/

/-- Predicate: `t` is a suffix of `s` (as strings). -/
def EndsWith (s t : String) : Prop := t.data <:+ s.data

instance (s t : String) : Decidable (EndsWith s t) :=
  inferInstanceAs (Decidable (t.data <:+ s.data))

/-- Predicate: `t` is a prefix of `s` (as strings), as a boolean. -/
def startsWithB (s t : String) : Bool := t.data.isPrefixOf s.data

/-- Substring test: the pattern occurs somewhere in the text. -/
def hasSub (pat : List Char) : List Char → Bool
  | [] => pat.isEmpty
  | c :: cs => pat.isPrefixOf (c :: cs) || hasSub pat cs

/-- Substring test on strings. -/
def strHasSub (s pat : String) : Bool := hasSub pat.data s.data

/-- No raw markup-sensitive character (angle bracket or double quote)
occurs in the character list. -/
def noSensitive (l : List Char) : Bool :=
  l.all (fun c => !(c = '<' || c = '>' || c = Char.ofNat 34))

/-- Every ampersand in the character list begins one of the five escape
sequences produced by `html.escape`, completed inside the list. -/
def ampOk : List Char → Bool
  | [] => true
  | c :: rest =>
    if c = '&' then
      (["amp;", "lt;", "gt;", "quot;", "#x27;"].any
          (fun p => p.data.isPrefixOf rest)) && ampOk rest
    else ampOk rest

/-- Boolean `ampOk` on a string. -/
def ampOkStr (s : String) : Bool := ampOk s.data

/-- The character-list form of `htmlEscape`, used in the escape lemmas. -/
def escL (l : List Char) : List Char :=
  (l.map (fun c => (escChar c).data)).flatten

/-! Dictionary lemmas: Python `dict.update` is a last-write-wins merge. -/

theorem getAttr_setAttr_self (a : Attrs) (k v : String) :
    getAttr (setAttr a k v) k = some v := by
  induction a with
  | nil => simp [setAttr, getAttr]
  | cons p rest ih =>
    by_cases h : p.1 = k
    · simp [setAttr, h, getAttr]
    · simpa [setAttr, h, getAttr, List.find?] using ih

theorem getAttr_setAttr_ne (a : Attrs) (k k' v : String) (h : k ≠ k') :
    getAttr (setAttr a k' v) k = getAttr a k := by
  induction a with
  | nil => simp [setAttr, getAttr, List.find?, Ne.symm h]
  | cons p rest ih =>
    by_cases hp : p.1 = k'
    · have hpk : p.1 ≠ k := by rw [hp]; exact Ne.symm h
      simp [setAttr, hp, getAttr, List.find?, Ne.symm h, hpk]
    · by_cases hk : p.1 = k
      · simp [setAttr, hp, getAttr, List.find?, hk, h]
      · simpa [setAttr, hp, getAttr, List.find?, hk] using ih

theorem update_cons (a : Attrs) (p : String × String) (ps : Attrs) :
    update a (p :: ps) = update (setAttr a p.1 p.2) ps := rfl

theorem getAttr_update_notMem (a : Attrs) (kw : Attrs) (k : String)
    (h : k ∉ keysOf kw) : getAttr (update a kw) k = getAttr a k := by
  induction kw generalizing a with
  | nil => rfl
  | cons p ps ih =>
    rw [update_cons]
    have h1 : k ∉ keysOf ps := by
      intro hm; exact h (by simp [keysOf] at hm ⊢; exact Or.inr hm)
    have h2 : k ≠ p.1 := by
      intro he; exact h (by simp [keysOf, he])
    rw [ih _ h1, getAttr_setAttr_ne _ _ _ _ h2]

theorem keysOf_cons (p : String × String) (ps : Attrs) :
    keysOf (p :: ps) = p.1 :: keysOf ps := rfl

theorem getAttr_update_mem (a : Attrs) (kw : Attrs) (k v : String)
    (hnd : (keysOf kw).Nodup) (hm : (k, v) ∈ kw) :
    getAttr (update a kw) k = some v := by
  induction kw generalizing a with
  | nil => cases hm
  | cons p ps ih =>
    rw [keysOf_cons, List.nodup_cons] at hnd
    rw [update_cons]
    rcases List.mem_cons.mp hm with he | hm'
    · obtain ⟨hk, hv⟩ : p.1 = k ∧ p.2 = v := by rw [← he]; exact ⟨rfl, rfl⟩
      have h1 : k ∉ keysOf ps := hk ▸ hnd.1
      rw [getAttr_update_notMem _ _ _ h1, hk, hv, getAttr_setAttr_self]
    · exact ih _ hnd.2 hm'

/-! String length and join lemmas. -/

theorem foldl_append_length (l : List String) (init : String) :
    (l.foldl (· ++ ·) init).length = init.length + sumLen l := by
  induction l generalizing init with
  | nil => simp [sumLen]
  | cons c cs ih =>
    simp only [List.foldl_cons, ih, String.length_append, sumLen, List.map,
      List.sum_cons]
    omega

theorem join_length (l : List String) :
    (String.join l).length = sumLen l := by
  simpa using foldl_append_length l ""

theorem lineOf_length (cur : List String) :
    (lineOf cur).length = sumLen cur := join_length cur

theorem foldl_append_data (l : List String) (init : String) :
    (l.foldl (· ++ ·) init).data =
      init.data ++ (l.map String.data).flatten := by
  induction l generalizing init with
  | nil => simp
  | cons c cs ih =>
    simp only [List.foldl_cons, ih, String.data_append, List.map,
      List.flatten_cons, List.append_assoc]

theorem join_data (l : List String) :
    (String.join l).data = (l.map String.data).flatten := by
  simp [String.join, foldl_append_data]

theorem join_concat (l : List String) (s : String) :
    String.join (l ++ [s]) = String.join l ++ s := by
  apply String.ext
  simp [join_data, String.data_append]

theorem sumLen_cons (c : String) (cs : List String) :
    sumLen (c :: cs) = c.length + sumLen cs := by
  simp [sumLen]

theorem sumLen_concat (l : List String) (s : String) :
    sumLen (l ++ [s]) = sumLen l + s.length := by
  simp [sumLen]

theorem sumLen_dropLast_le (l : List String) :
    sumLen l.dropLast ≤ sumLen l := by
  induction l with
  | nil => simp
  | cons c cs ih =>
    cases cs with
    | nil => simp [sumLen]
    | cons d ds =>
      simp only [List.dropLast_cons₂, sumLen_cons] at ih ⊢
      omega

/-! The pad-to-three step. -/

theorem padToThree_length (xs : List String) (h : xs.length ≤ 3) :
    (padToThree xs).length = 3 := by
  simp [padToThree]
  omega

theorem padToThree_idem (xs : List String) :
    padToThree (padToThree xs) = padToThree xs := by
  unfold padToThree
  rcases xs with _ | ⟨a, _ | ⟨b, _ | ⟨c, _ | ⟨d, tl⟩⟩⟩⟩ <;>
    simp [List.replicate]

/-! Escape-safety lemmas. -/

theorem htmlEscape_data (s : String) : (htmlEscape s).data = escL s.data := by
  simp [htmlEscape, join_data, escL, List.map_map]
  rfl

theorem escL_append (a b : List Char) :
    escL (a ++ b) = escL a ++ escL b := by
  simp [escL]

theorem noSensitive_append (a b : List Char) :
    noSensitive (a ++ b) = (noSensitive a && noSensitive b) :=
  List.all_append

theorem noSensitive_escChar (c : Char) :
    noSensitive (escChar c).data = true := by
  unfold escChar
  split_ifs with h1 h2 h3 h4 h5
  · decide
  · decide
  · decide
  · decide
  · decide
  · simp [noSensitive, String.mk, h2, h3, h4]

theorem noSensitive_escL (l : List Char) : noSensitive (escL l) = true := by
  induction l with
  | nil => decide
  | cons c cs ih =>
    have : escL (c :: cs) = (escChar c).data ++ escL cs := by simp [escL]
    rw [this, noSensitive_append, noSensitive_escChar, ih]; rfl

theorem noSensitive_htmlEscape (s : String) :
    noSensitive (htmlEscape s).data = true := by
  rw [htmlEscape_data]; exact noSensitive_escL s.data

theorem isPrefixOf_of_append {p a : List Char} (b : List Char)
    (h : p.isPrefixOf a = true) : p.isPrefixOf (a ++ b) = true :=
  List.isPrefixOf_iff_prefix.mpr
    ((List.isPrefixOf_iff_prefix.mp h).trans (List.prefix_append a b))

theorem ampOk_append (a b : List Char) (ha : ampOk a = true)
    (hb : ampOk b = true) : ampOk (a ++ b) = true := by
  induction a with
  | nil => simpa using hb
  | cons c cs ih =>
    rw [List.cons_append]
    unfold ampOk at ha ⊢
    by_cases hc : c = '&'
    · rw [if_pos hc] at ha ⊢
      simp only [Bool.and_eq_true] at ha ⊢
      obtain ⟨hpre, hrest⟩ := ha
      refine ⟨?_, ih hrest⟩
      rcases List.any_eq_true.mp hpre with ⟨p, hp, hpp⟩
      exact List.any_eq_true.mpr ⟨p, hp, isPrefixOf_of_append b hpp⟩
    · rw [if_neg hc] at ha ⊢
      exact ih ha

theorem ampOk_escChar (c : Char) : ampOk (escChar c).data = true := by
  unfold escChar
  split_ifs with h1 h2 h3 h4 h5
  · decide
  · decide
  · decide
  · decide
  · decide
  · simp [ampOk, String.mk, h1]

theorem ampOk_escL (l : List Char) : ampOk (escL l) = true := by
  induction l with
  | nil => decide
  | cons c cs ih =>
    have : escL (c :: cs) = (escChar c).data ++ escL cs := by simp [escL]
    rw [this]
    exact ampOk_append _ _ (ampOk_escChar c) ih

theorem ampOk_htmlEscape (s : String) : ampOkStr (htmlEscape s) = true := by
  rw [ampOkStr, htmlEscape_data]; exact ampOk_escL s.data

theorem ampOkStr_append (a b : String) (ha : ampOkStr a = true)
    (hb : ampOkStr b = true) : ampOkStr (a ++ b) = true := by
  rw [ampOkStr, String.data_append]
  exact ampOk_append _ _ ha hb

theorem ampOk_brJoin (ls : List String)
    (h : ∀ x ∈ ls, ampOkStr x = true) : ampOkStr (brJoin ls) = true := by
  induction ls with
  | nil => decide
  | cons x xs ih =>
    cases xs with
    | nil => simpa [brJoin] using h x (by simp)
    | cons y ys =>
      rw [brJoin]
      have hbr : ampOkStr "<br/>" = true := by decide
      have hrest : ampOkStr (brJoin (y :: ys)) = true :=
        ih (fun z hz => h z (List.mem_cons_of_mem x hz))
      exact ampOkStr_append _ _
        (ampOkStr_append _ _ (h x (by simp)) hbr) hrest

/-! Lemmas about the wrapping loop. -/

theorem wrapLoop_nil (w : Nat) (ml : Option Nat) (fuel : Nat)
    (lines : List String) : wrapLoop w ml fuel [] lines = lines := by
  cases fuel <;> rfl

theorem wrapLoop_cons (w : Nat) (ml : Option Nat) (fuel : Nat)
    (c : String) (cs lines : List String) :
    wrapLoop w ml (fuel + 1) (c :: cs) lines =
      (let b := buildLine w (!(lines.isEmpty)) (c :: cs)
       if b.1.isEmpty then wrapLoop w ml fuel b.2 lines
       else if appendOk w ml lines b.2 b.1 then
         wrapLoop w ml fuel b.2 (lines ++ [lineOf b.1])
       else truncateLines w lines b.1) := rfl

theorem buildLine_blank_singleton (w : Nat) (c : String)
    (hc : isBlank c = true) : buildLine w true [c] = ([], []) := by
  simp [buildLine, dropLead, hc, greedyTake, longWordAdjust, dropTrailingBlank]

theorem wrapLoop_blank_singleton (w : Nat) (ml : Option Nat) (fuel : Nat)
    (c : String) (a : String) (as : List String) (hc : isBlank c = true) :
    wrapLoop w ml fuel [c] (a :: as) = a :: as := by
  cases fuel with
  | zero => rfl
  | succ n =>
    rw [wrapLoop_cons]
    simp [buildLine_blank_singleton w c hc, wrapLoop_nil]

theorem truncateLines_length (w : Nat) (lines cur : List String) :
    (truncateLines w lines cur).length ≤ lines.length + 1 := by
  unfold truncateLines
  rcases hp : popFitRev w cur.reverse with _ | rev
  · rcases hl : lines.getLast? with _ | last
    · simp
    · by_cases hf : (rstripStr last).length + placeholder.length ≤ w
      · simp only [hf, if_true]
        simp [List.length_dropLast]
      · simp [hf]
  · simp

theorem truncateLines_ne_nil (w : Nat) (lines cur : List String) :
    truncateLines w lines cur ≠ [] := by
  unfold truncateLines
  rcases hp : popFitRev w cur.reverse with _ | rev
  · rcases hl : lines.getLast? with _ | last
    · simp
    · by_cases hf : (rstripStr last).length + placeholder.length ≤ w <;>
        simp [hf]
  · simp

theorem wrapLoop_length_le (w : Nat) (m : Nat) : ∀ (fuel : Nat)
    (chunks lines : List String), lines.length < m →
    (wrapLoop w (some m) fuel chunks lines).length ≤ m := by
  intro fuel
  induction fuel with
  | zero =>
    intro chunks lines h
    simpa [wrapLoop] using Nat.le_of_lt h
  | succ n ih =>
    intro chunks lines h
    cases chunks with
    | nil => simpa [wrapLoop_nil] using Nat.le_of_lt h
    | cons c cs =>
      rw [wrapLoop_cons]
      rcases hB : buildLine w (!(lines.isEmpty)) (c :: cs) with ⟨b1, b2⟩
      simp only [hB]
      cases b1 with
      | nil => simpa using ih b2 lines h
      | cons x xs =>
        simp only [List.isEmpty_cons, Bool.false_eq_true, if_false]
        by_cases ha : appendOk w (some m) lines b2 (x :: xs) = true
        · rw [if_pos ha]
          by_cases hlt : lines.length + 1 < m
          · exact ih b2 _ (by simpa using hlt)
          · simp only [appendOk, Bool.or_eq_true, Bool.and_eq_true,
              decide_eq_true_eq] at ha
            rcases ha with h1 | ⟨hb, _⟩
            · exact absurd h1 hlt
            · have hlen : (lines ++ [lineOf (x :: xs)]).length ≤ m := by
                simp only [List.length_append, List.length_cons,
                  List.length_nil]
                omega
              rcases hb with hnil | ⟨hone, hbl⟩
              · have : b2 = [] := by simpa using hnil
                subst this
                simpa [wrapLoop_nil] using hlen
              · rcases b2 with _ | ⟨r, _ | _⟩
                · simpa [wrapLoop_nil] using hlen
                · have hr : isBlank r = true := by simpa using hbl
                  rcases hlines : lines ++ [lineOf (x :: xs)] with _ | ⟨a, as⟩
                  · exact absurd hlines (by simp)
                  · rw [wrapLoop_blank_singleton w (some m) n r a as hr]
                    rw [← hlines]; exact hlen
                · simp at hone
        · rw [if_neg ha]
          have := truncateLines_length w lines (x :: xs)
          omega

/-! Width bounds: every line produced by the wrapping loop is at most the
width (for the widths used in this module, which exceed the placeholder). -/

theorem greedyTake_sum (w : Nat) : ∀ (chunks : List String) (len : Nat),
    len ≤ w → len + sumLen (greedyTake w chunks len).1 ≤ w := by
  intro chunks
  induction chunks with
  | nil => intro len h; simpa [greedyTake, sumLen] using h
  | cons c cs ih =>
    intro len h
    by_cases hc : len + c.length ≤ w
    · have := ih (len + c.length) hc
      simp only [greedyTake, if_pos hc, sumLen_cons]
      omega
    · simp only [greedyTake, if_neg hc, sumLen]
      simpa using h

theorem lastHyphenIdx_lt : ∀ (l : List Char) (h : Nat),
    lastHyphenIdx l = some h → h < l.length := by
  intro l
  induction l with
  | nil => intro h hh; simp [lastHyphenIdx] at hh
  | cons c cs ih =>
    intro h hh
    unfold lastHyphenIdx at hh
    rcases hk : lastHyphenIdx cs with _ | k
    · rw [hk] at hh
      by_cases hc : c = '-'
      · rw [if_pos hc] at hh
        cases hh; simp
      · rw [if_neg hc] at hh; cases hh
    · rw [hk] at hh
      cases hh
      have := ih k hk
      simp only [List.length_cons]
      omega

theorem handleLongWord_fst_le (w curLen : Nat) (chunk : String)
    (hw : 1 ≤ w) (hc : curLen ≤ w) :
    curLen + (handleLongWord w curLen chunk).1.length ≤ w := by
  unfold handleLongWord
  have hnw : ¬(w < 1) := by omega
  simp only [if_neg hnw]
  have goal : ∀ e, e ≤ w - curLen →
      curLen + (String.mk (chunk.data.take e)).length ≤ w := by
    intro e he
    have : (String.mk (chunk.data.take e)).length ≤ e := by
      simp [String.length_mk, List.length_take]
    omega
  rcases hL : lastHyphenIdx (chunk.data.take (w - curLen)) with _ | h
  · by_cases hsp : w - curLen < chunk.length <;>
      simp only [hL, hsp, if_true, if_false, reduceCtorEq] <;>
      exact goal _ (Nat.le_refl _)
  · have hlt : h < w - curLen := by
      have := lastHyphenIdx_lt _ _ hL
      have := List.length_take_le (w - curLen) chunk.data
      omega
    by_cases hsp : w - curLen < chunk.length
    · simp only [hL, hsp, if_true]
      by_cases hh : 0 < h ∧ (chunk.data.take h).any (fun c => !(c = '-')) = true
      · rw [if_pos (by simpa using hh)]
        exact goal _ (by omega)
      · rw [if_neg (by simpa using hh)]
        exact goal _ (Nat.le_refl _)
    · simp only [hsp, if_false, reduceCtorEq]
      exact goal _ (Nat.le_refl _)

theorem longWordAdjust_sum_le (w : Nat) (p : List String × List String)
    (hw : 1 ≤ w) (hp : sumLen p.1 ≤ w) :
    sumLen (longWordAdjust w p).1 ≤ w := by
  rcases p with ⟨cur, _ | ⟨c, cs⟩⟩
  · simpa [longWordAdjust] using hp
  · by_cases hc : w < c.length
    · simp only [longWordAdjust, if_pos hc, sumLen_concat]
      have := handleLongWord_fst_le w (sumLen cur) c hw (by simpa using hp)
      simp only [] at hp ⊢
      omega
    · simpa [longWordAdjust, hc] using hp

theorem dropTrailingBlank_sum_le (q : List String × List String) :
    sumLen (dropTrailingBlank q).1 ≤ sumLen q.1 := by
  rcases q with ⟨cur, rest⟩
  unfold dropTrailingBlank
  rcases hL : cur.getLast? with _ | lastC
  · simp [hL]
  · by_cases hb : isBlank lastC = true
    · simp only [hL, hb, if_true]
      exact sumLen_dropLast_le cur
    · simp [hL, hb]

theorem buildLine_sum_le (w : Nat) (dl : Bool) (chunks : List String)
    (hw : 1 ≤ w) : sumLen (buildLine w dl chunks).1 ≤ w := by
  unfold buildLine
  refine le_trans (dropTrailingBlank_sum_le _) ?_
  refine longWordAdjust_sum_le w _ hw ?_
  simpa using greedyTake_sum w (dropLead dl chunks) 0 (by omega)

theorem popFitRev_sound (w : Nat) : ∀ (l r : List String),
    popFitRev w l = some r → sumLen r + placeholder.length ≤ w := by
  intro l
  induction l with
  | nil => intro r hr; simp [popFitRev] at hr
  | cons c cs ih =>
    intro r hr
    unfold popFitRev at hr
    by_cases hc : (!(isBlank c) && decide (sumLen (c :: cs) + placeholder.length ≤ w)) = true
    · rw [if_pos hc] at hr
      cases hr
      exact of_decide_eq_true (Bool.and_eq_true _ _ ▸ hc).2
    · rw [if_neg hc] at hr
      exact ih r hr

theorem truncateLines_width (w : Nat) (lines cur : List String)
    (hw : 5 ≤ w) (hl : ∀ l ∈ lines, l.length ≤ w) :
    ∀ l ∈ truncateLines w lines cur, l.length ≤ w := by
  unfold truncateLines
  rcases hp : popFitRev w cur.reverse with _ | rev
  · rcases hg : lines.getLast? with _ | last
    · intro l hm
      rcases List.mem_append.mp hm with h1 | h2
      · exact hl l h1
      · have : l = placeholderStripped := by simpa using h2
        rw [this]; simpa [placeholderStripped] using hw
    · by_cases hf : (rstripStr last).length + placeholder.length ≤ w
      · simp only [hf, if_true]
        intro l hm
        rcases List.mem_append.mp hm with h1 | h2
        · exact hl l (List.dropLast_subset lines h1)
        · have : l = rstripStr last ++ placeholder := by simpa using h2
          rw [this]
          rw [String.length_append]
          exact hf
      · simp only [hf, if_false, reduceCtorEq]
        intro l hm
        rcases List.mem_append.mp hm with h1 | h2
        · exact hl l h1
        · have : l = placeholderStripped := by simpa using h2
          rw [this]; simpa [placeholderStripped] using hw
  · intro l hm
    rcases List.mem_append.mp hm with h1 | h2
    · exact hl l h1
    · have hle : l = lineOf (rev.reverse ++ [placeholder]) := by simpa using h2
      rw [hle, lineOf_length, sumLen_concat]
      have hs := popFitRev_sound w cur.reverse rev hp
      have : sumLen rev.reverse = sumLen rev := by
        simp [sumLen, List.map_reverse, List.sum_reverse]
      omega

theorem wrapLoop_width (w : Nat) (ml : Option Nat) (hw : 5 ≤ w) :
    ∀ (fuel : Nat) (chunks lines : List String),
    (∀ l ∈ lines, l.length ≤ w) →
    ∀ l ∈ wrapLoop w ml fuel chunks lines, l.length ≤ w := by
  intro fuel
  induction fuel with
  | zero => intro chunks lines h; simpa [wrapLoop] using h
  | succ n ih =>
    intro chunks lines h
    cases chunks with
    | nil => simpa [wrapLoop_nil] using h
    | cons c cs =>
      rw [wrapLoop_cons]
      rcases hB : buildLine w (!(lines.isEmpty)) (c :: cs) with ⟨b1, b2⟩
      simp only [hB]
      cases b1 with
      | nil => simpa using ih b2 lines h
      | cons x xs =>
        simp only [List.isEmpty_cons, Bool.false_eq_true, if_false]
        by_cases ha : appendOk w ml lines b2 (x :: xs) = true
        · rw [if_pos ha]
          refine ih b2 _ ?_
          intro l hm
          rcases List.mem_append.mp hm with h1 | h2
          · exact h l h1
          · have : l = lineOf (x :: xs) := by simpa using h2
            rw [this, lineOf_length]
            have := buildLine_sum_le w (!(lines.isEmpty)) (c :: cs)
              (by omega)
            rw [hB] at this
            simpa using this
        · rw [if_neg ha]
          exact truncateLines_width w lines (x :: xs) hw h

/-! The truncation marker: when the unlimited wrap exceeds the line limit,
the limited wrap ends in the placeholder. -/

theorem suffix_append_of_suffix {a c : List Char} (b : List Char)
    (h : a <:+ c) : a <:+ b ++ c := by
  obtain ⟨t, rfl⟩ := h
  exact ⟨b ++ t, by simp⟩

theorem marker_suffix_append (s : String) :
    placeholderStripped.data <:+ (s ++ placeholder).data := by
  rw [String.data_append]
  exact suffix_append_of_suffix s.data (by decide)

theorem truncateLines_marker (w : Nat) (lines cur : List String) :
    placeholderStripped.data <:+
      ((truncateLines w lines cur).getLastD "").data := by
  unfold truncateLines
  rcases hp : popFitRev w cur.reverse with _ | rev
  · rcases hg : lines.getLast? with _ | last
    · simp [List.getLastD_concat, placeholderStripped]
    · by_cases hf : (rstripStr last).length + placeholder.length ≤ w
      · simp only [hf, if_true, List.getLastD_concat]
        exact marker_suffix_append (rstripStr last)
      · simp [hf, List.getLastD_concat, placeholderStripped]
  · simp only [List.getLastD_concat]
    rw [lineOf, join_concat]
    exact marker_suffix_append (String.join rev.reverse)

theorem wrapLoop_none_gt_marker (w : Nat) : ∀ (fuel : Nat)
    (chunks lines : List String), lines.length ≤ 2 →
    3 < (wrapLoop w none fuel chunks lines).length →
    placeholderStripped.data <:+
      ((wrapLoop w (some 3) fuel chunks lines).getLastD "").data := by
  intro fuel
  induction fuel with
  | zero =>
    intro chunks lines hlen h2
    rw [wrapLoop] at h2
    omega
  | succ n ih =>
    intro chunks lines hlen h2
    cases chunks with
    | nil =>
      rw [wrapLoop_nil] at h2
      omega
    | cons c cs =>
      rw [wrapLoop_cons] at h2 ⊢
      rcases hB : buildLine w (!(lines.isEmpty)) (c :: cs) with ⟨b1, b2⟩
      simp only [hB] at h2 ⊢
      cases b1 with
      | nil =>
        simp only [List.isEmpty_nil, if_true] at h2 ⊢
        exact ih b2 lines hlen h2
      | cons x xs =>
        simp only [List.isEmpty_cons, Bool.false_eq_true, if_false,
          appendOk] at h2 ⊢
        rw [if_pos trivial] at h2
        by_cases hOK : (decide (lines.length + 1 < 3) ||
            ((b2.isEmpty || (decide (b2.length = 1) &&
              isBlank (b2.headD ""))) && decide (sumLen (x :: xs) ≤ w)))
            = true
        · rw [if_pos hOK]
          simp only [Bool.or_eq_true, Bool.and_eq_true,
            decide_eq_true_eq] at hOK
          rcases hOK with hlt | ⟨hb, _⟩
          · refine ih b2 _ ?_ h2
            simp only [List.length_append, List.length_cons,
              List.length_nil]
            omega
          · exfalso
            rcases hb with hnil | ⟨hone, hbl⟩
            · have : b2 = [] := by simpa using hnil
              subst this
              rw [wrapLoop_nil] at h2
              simp only [List.length_append, List.length_cons,
                List.length_nil] at h2
              omega
            · rcases b2 with _ | ⟨r, _ | _⟩
              · rw [wrapLoop_nil] at h2
                simp only [List.length_append, List.length_cons,
                  List.length_nil] at h2
                omega
              · have hr : isBlank r = true := by simpa using hbl
                rcases hlines : lines ++ [lineOf (x :: xs)]
                  with _ | ⟨a, as⟩
                · exact absurd hlines (by simp)
                · rw [hlines, wrapLoop_blank_singleton w none n r a as hr]
                    at h2
                  have : (a :: as).length = lines.length + 1 := by
                    rw [← hlines]; simp
                  omega
              · simp at hone
        · rw [if_neg hOK]
          exact truncateLines_marker w lines (x :: xs)

theorem htmlEscape_marker_suffix (l : String)
    (h : placeholderStripped.data <:+ l.data) :
    placeholderStripped.data <:+ (htmlEscape l).data := by
  obtain ⟨u, hu⟩ := h
  rw [htmlEscape_data, ← hu, escL_append]
  have he : escL placeholderStripped.data = placeholderStripped.data := by
    decide
  rw [he]
  exact List.suffix_append _ _

/-! Corollaries about the wrapping entry points of the module. -/

theorem wrapText_maxLines_le (w m : Nat) (d : String) (hm : 0 < m) :
    (wrapText w (some m) d).length ≤ m := by
  unfold wrapText
  exact wrapLoop_length_le w m _ _ [] (by simpa using hm)

theorem wrapText_width (w : Nat) (ml : Option Nat) (d : String)
    (hw : 5 ≤ w) : ∀ l ∈ wrapText w ml d, l.length ≤ w := by
  unfold wrapText
  exact wrapLoop_width w ml hw _ _ [] (by simp)

theorem formatDescriptionLines_length (d : String) :
    (formatDescriptionLines d).length = 3 := by
  unfold formatDescriptionLines
  refine padToThree_length _ ?_
  rw [List.length_map]
  exact wrapText_maxLines_le 40 3 d (by omega)

/-! Claim theorems. -/

set_option maxRecDepth 40000

/-- C1 (counterexample): for the empty description the node label produced
by a builder call does not contain the three-blank-line description body at
all: `_format_description` of the empty description is the three blank
lines `<br/><br/>`, but the label of `System("Billing", external=True)`
does not contain that string, because `_format_node_label` omits the
description section entirely when the description is empty. -/
theorem c1_empty_description_no_body :
    formatDescription "" = "<br/><br/>" ∧
    getAttr (System "Billing" "" true []) "label" =
      some (formatNodeLabel "Billing" "External System" "") ∧
    strHasSub (formatNodeLabel "Billing" "External System" "")
      (formatDescription "") = false := by
  decide

/-- C1 (amended): the description formatter always produces exactly three
rendered lines (padded with empty lines when the wrapped text is shorter),
and for every non-empty description the node label returned by a
node-building call contains the three-line description body; for the empty
description the builders omit the body from the label (see the
counterexample), although the formatter itself would still return three
blank lines. -/
theorem c1_node_label_three_lines (name key d : String) :
    (formatDescriptionLines d).length = 3 ∧
    (d ≠ "" → ∃ a b : String, formatNodeLabel name key d =
      a ++ ("<br/><font point-size=\"10\">" ++ formatDescription d ++
        "</font>") ++ b) ∧
    getAttr (Person name d false []) "label" =
      some (formatNodeLabel name "Person" d) ∧
    getAttr (System name d false []) "label" =
      some (formatNodeLabel name "System" d) ∧
    getAttr (Container name "" d []) "label" =
      some (formatNodeLabel name "Container" d) ∧
    getAttr (Database name "" d []) "label" =
      some (formatNodeLabel name "Database" d) := by
  refine ⟨formatDescriptionLines_length d, ?_, ?_, ?_, ?_, ?_⟩
  · intro hd
    refine ⟨"<" ++ ("<font point-size=\"12\"><b>" ++ htmlEscape name ++
      "</b></font><br/>") ++
      (if key = "" then ""
       else "<font point-size=\"9\">[" ++ htmlEscape key ++
         "]<br/></font>"), ">", ?_⟩
    simp only [formatNodeLabel, if_neg hd]
  · by_cases hd : d = "" <;>
      simp [Person, hd, update, setAttr, getAttr, List.find?]
  · by_cases hd : d = "" <;>
      simp [System, hd, update, setAttr, getAttr, List.find?]
  · simp [Container, update, getAttr, List.find?]
  · simp [Database, update, getAttr, List.find?]

/-- C1 (witness for the amended theorem): a concrete non-empty description
whose body appears in the label. -/
theorem c1_node_label_three_lines_witness :
    ∃ a b : String, formatNodeLabel "API" "Container" "stores data" =
      a ++ ("<br/><font point-size=\"10\">" ++
        formatDescription "stores data" ++ "</font>") ++ b :=
  (c1_node_label_three_lines "API" "Container" "stores data").2.1
    (by decide)

/-- C2 (counterexample): the node description formatter is not idempotent:
applying `_format_description` to its own output escapes the markup of the
first pass, so even for the plain description "hello" the results differ. -/
theorem c2_not_idempotent :
    formatDescription (formatDescription "hello") ≠
      formatDescription "hello" := by
  decide

/-- C2 (amended): the pad-to-three step itself is idempotent (padding any
line list twice equals padding it once), and the formatter's own line
output is a fixpoint of the padding; but the full formatter applied to its
own string output differs, because the output is re-escaped and re-wrapped
(see the counterexample). -/
theorem c2_pad_idempotent :
    (∀ xs : List String, padToThree (padToThree xs) = padToThree xs) ∧
    (∀ d : String,
      padToThree (formatDescriptionLines d) = formatDescriptionLines d) := by
  refine ⟨padToThree_idem, ?_⟩
  intro d
  unfold formatDescriptionLines
  exact padToThree_idem _

/-- C3 (counterexample): a description whose greedy 40-character wrapping
has four lines, while the truncated wrap keeps only two lines with the
placeholder attached to the second; the third rendered line of the label
body is the empty padding line and ends with no ellipsis marker. -/
theorem c3_third_line_marker_fails :
    3 < (wrapText 40 none
      "aaaaaaaaaaaaaaaaaaaaaaaaaaaaaaaaaaaaaaaa bbbbbbbbbbbbbbbbbbbbbbbbbbbbbb cccccccccccccccccccccccccccccccccccccccc dddddddddd").length ∧
    formatDescriptionLines
      "aaaaaaaaaaaaaaaaaaaaaaaaaaaaaaaaaaaaaaaa bbbbbbbbbbbbbbbbbbbbbbbbbbbbbb cccccccccccccccccccccccccccccccccccccccc dddddddddd" =
      ["aaaaaaaaaaaaaaaaaaaaaaaaaaaaaaaaaaaaaaaa",
       "bbbbbbbbbbbbbbbbbbbbbbbbbbbbbb [...]", ""] ∧
    ¬ EndsWith ((formatDescriptionLines
      "aaaaaaaaaaaaaaaaaaaaaaaaaaaaaaaaaaaaaaaa bbbbbbbbbbbbbbbbbbbbbbbbbbbbbb cccccccccccccccccccccccccccccccccccccccc dddddddddd").getD 2 "")
      placeholderStripped ∧
    ¬ EndsWith ((formatDescriptionLines
      "aaaaaaaaaaaaaaaaaaaaaaaaaaaaaaaaaaaaaaaa bbbbbbbbbbbbbbbbbbbbbbbbbbbbbb cccccccccccccccccccccccccccccccccccccccc dddddddddd").getD 2 "")
      "..." := by
  decide

/-- C3 (amended): for every description whose greedy 40-character wrapping
produces more than three lines, the truncated wrap keeps at most three
lines, its last kept line (which may be the second rather than the third)
ends with the truncation marker; the marker survives escaping into the
rendered body, and the body still renders as exactly three lines, so no
content beyond the third rendered line appears. -/
theorem c3_truncation (d : String)
    (h : 3 < (wrapText 40 none d).length) :
    (wrapText 40 (some 3) d).length ≤ 3 ∧
    EndsWith ((wrapText 40 (some 3) d).getLastD "") placeholderStripped ∧
    EndsWith (((wrapText 40 (some 3) d).map htmlEscape).getLastD "")
      placeholderStripped ∧
    (formatDescriptionLines d).length = 3 := by
  have hmark : placeholderStripped.data <:+
      ((wrapText 40 (some 3) d).getLastD "").data := by
    unfold wrapText at h ⊢
    exact wrapLoop_none_gt_marker 40 _ _ [] (by simp) h
  have hne : wrapText 40 (some 3) d ≠ [] := by
    intro he
    rw [he] at hmark
    exact (by decide :
      ¬ placeholderStripped.data <:+ (("" : String)).data) hmark
  refine ⟨wrapText_maxLines_le 40 3 d (by omega), hmark, ?_,
    formatDescriptionLines_length d⟩
  obtain ⟨a, ha⟩ : ∃ a, (wrapText 40 (some 3) d).getLast? = some a := by
    rcases hL : (wrapText 40 (some 3) d).getLast? with _ | a
    · exact absurd (List.getLast?_eq_none_iff.mp hL) hne
    · exact ⟨a, rfl⟩
  have hmap : ((wrapText 40 (some 3) d).map htmlEscape).getLast? =
      some (htmlEscape a) := by
    rw [List.getLast?_map, ha]
    rfl
  have hda : (wrapText 40 (some 3) d).getLastD "" = a := by
    rw [List.getLastD_eq_getLast?, ha]
    rfl
  have hmda : ((wrapText 40 (some 3) d).map htmlEscape).getLastD "" =
      htmlEscape a := by
    rw [List.getLastD_eq_getLast?, hmap]
    rfl
  rw [EndsWith, hmda]
  exact htmlEscape_marker_suffix a (by rw [hda] at hmark; exact hmark)

/-- C3 (witness for the amended theorem): the counterexample input has an
untruncated wrap of four lines; the amended conclusions hold there. -/
theorem c3_truncation_witness :
    (wrapText 40 (some 3)
      "aaaaaaaaaaaaaaaaaaaaaaaaaaaaaaaaaaaaaaaa bbbbbbbbbbbbbbbbbbbbbbbbbbbbbb cccccccccccccccccccccccccccccccccccccccc dddddddddd").length ≤ 3 ∧
    EndsWith ((wrapText 40 (some 3)
      "aaaaaaaaaaaaaaaaaaaaaaaaaaaaaaaaaaaaaaaa bbbbbbbbbbbbbbbbbbbbbbbbbbbbbb cccccccccccccccccccccccccccccccccccccccc dddddddddd").getLastD "")
      placeholderStripped ∧
    EndsWith (((wrapText 40 (some 3)
      "aaaaaaaaaaaaaaaaaaaaaaaaaaaaaaaaaaaaaaaa bbbbbbbbbbbbbbbbbbbbbbbbbbbbbb cccccccccccccccccccccccccccccccccccccccc dddddddddd").map htmlEscape).getLastD "")
      placeholderStripped ∧
    (formatDescriptionLines
      "aaaaaaaaaaaaaaaaaaaaaaaaaaaaaaaaaaaaaaaa bbbbbbbbbbbbbbbbbbbbbbbbbbbbbb cccccccccccccccccccccccccccccccccccccccc dddddddddd").length = 3 :=
  c3_truncation
    "aaaaaaaaaaaaaaaaaaaaaaaaaaaaaaaaaaaaaaaa bbbbbbbbbbbbbbbbbbbbbbbbbbbbbb cccccccccccccccccccccccccccccccccccccccc dddddddddd"
    (by decide)

/-- C4: a `Relationship` with an empty description carries no label
attribute; with a non-empty description its label is the description
wrapped to at most three lines of at most 24 characters each, each line
escaped, joined by line breaks, inside the small-font markup span. -/
theorem c4_relationship (d : String) (hd : d ≠ "") :
    getAttr (Relationship "" []) "label" = none ∧
    getAttr (Relationship d []) "label" = some (formatEdgeLabel d) ∧
    (wrapText 24 (some 3) d).length ≤ 3 ∧
    (∀ l ∈ wrapText 24 (some 3) d, l.length ≤ 24) ∧
    formatEdgeLabel d =
      "<<font point-size=\"10\">" ++
        brJoin ((wrapText 24 (some 3) d).map htmlEscape) ++ "</font>>" := by
  refine ⟨by decide, ?_, wrapText_maxLines_le 24 3 d (by omega),
    wrapText_width 24 (some 3) d (by omega), rfl⟩
  simp [Relationship, hd, update, setAttr, getAttr, List.find?]

/-- C4 (witness): the edge label of the spec's example description. -/
theorem c4_relationship_witness :
    getAttr (Relationship "" []) "label" = none ∧
    getAttr (Relationship "Sends invoice data nightly via batch job" [])
        "label" =
      some (formatEdgeLabel "Sends invoice data nightly via batch job") ∧
    (wrapText 24 (some 3)
      "Sends invoice data nightly via batch job").length ≤ 3 ∧
    (∀ l ∈ wrapText 24 (some 3)
      "Sends invoice data nightly via batch job", l.length ≤ 24) ∧
    formatEdgeLabel "Sends invoice data nightly via batch job" =
      "<<font point-size=\"10\">" ++
        brJoin ((wrapText 24 (some 3)
          "Sends invoice data nightly via batch job").map htmlEscape) ++
        "</font>>" :=
  c4_relationship "Sends invoice data nightly via batch job" (by decide)

/-- C5: user-supplied text is escaped before being embedded in label
markup: the escape output contains no raw angle bracket or double quote,
and every ampersand of the escape output and of every produced node or
edge label begins one of the five escape sequences; the boundary label is
the escaped name. -/
theorem c5_escaping :
    (∀ s : String, noSensitive (htmlEscape s).data = true ∧
      ampOkStr (htmlEscape s) = true) ∧
    (∀ name key d : String,
      ampOkStr (formatNodeLabel name key d) = true) ∧
    (∀ d : String, ampOkStr (formatEdgeLabel d) = true) ∧
    (∀ name : String,
      getAttr (SystemBoundary name []).graphAttr "label" =
        some (htmlEscape name)) := by
  have hlines : ∀ d : String, ∀ x ∈ formatDescriptionLines d,
      ampOkStr x = true := by
    intro d x hx
    unfold formatDescriptionLines padToThree at hx
    rcases List.mem_append.mp hx with h1 | h2
    · obtain ⟨y, _, rfl⟩ := List.mem_map.mp h1
      exact ampOk_htmlEscape y
    · rw [List.eq_of_mem_replicate h2]
      decide
  have hedge : ∀ w : Nat, ∀ d : String,
      ampOkStr (brJoin ((wrapText w (some 3) d).map htmlEscape)) = true := by
    intro w d
    refine ampOk_brJoin _ ?_
    intro x hx
    obtain ⟨y, _, rfl⟩ := List.mem_map.mp hx
    exact ampOk_htmlEscape y
  refine ⟨fun s => ⟨noSensitive_htmlEscape s, ampOk_htmlEscape s⟩,
    ?_, ?_, ?_⟩
  · intro name key d
    unfold formatNodeLabel
    have hdesc : ampOkStr (formatDescription d) = true :=
      ampOk_brJoin _ (hlines d)
    have htitle : ampOkStr ("<font point-size=\"12\"><b>" ++
        htmlEscape name ++ "</b></font><br/>") = true :=
      ampOkStr_append _ _
        (ampOkStr_append _ _ (by decide) (ampOk_htmlEscape name))
        (by decide)
    have hsub : ampOkStr (if key = "" then ""
        else "<font point-size=\"9\">[" ++ htmlEscape key ++
          "]<br/></font>") = true := by
      by_cases hk : key = ""
      · simp only [hk, if_true]; decide
      · rw [if_neg hk]
        exact ampOkStr_append _ _
          (ampOkStr_append _ _ (by decide) (ampOk_htmlEscape key))
          (by decide)
    have htext : ampOkStr (if d = "" then ""
        else "<br/><font point-size=\"10\">" ++ formatDescription d ++
          "</font>") = true := by
      by_cases hd : d = ""
      · simp only [hd, if_true]; decide
      · rw [if_neg hd]
        exact ampOkStr_append _ _
          (ampOkStr_append _ _ (by decide) hdesc) (by decide)
    exact ampOkStr_append _ _
      (ampOkStr_append _ _
        (ampOkStr_append _ _
          (ampOkStr_append _ _ (by decide) htitle) hsub) htext)
      (by decide)
  · intro d
    unfold formatEdgeLabel
    exact ampOkStr_append _ _
      (ampOkStr_append _ _ (by decide) (hedge 24 d)) (by decide)
  · intro name
    simp [SystemBoundary, update, getAttr, List.find?]

/-- C6: caller-supplied overrides always win over the computed defaults of
every builder (last-write-wins merge, applied after all computed
attributes), and in particular `Container("API", fillcolor="red")` has
fill color red. -/
theorem c6_overrides (name tech d : String) (ext : Bool) (kwargs : Attrs)
    (k v : String) (hnd : (keysOf kwargs).Nodup) (hm : (k, v) ∈ kwargs) :
    getAttr (Container name tech d kwargs) k = some v ∧
    getAttr (Database name tech d kwargs) k = some v ∧
    getAttr (System name d ext kwargs) k = some v ∧
    getAttr (Person name d ext kwargs) k = some v ∧
    getAttr (SystemBoundary name kwargs).graphAttr k = some v ∧
    getAttr (Relationship d kwargs) k = some v ∧
    getAttr (Container "API" "" "" [("fillcolor", "red")]) "fillcolor" =
      some "red" := by
  refine ⟨?_, ?_, ?_, ?_, ?_, ?_, by decide⟩
  · exact getAttr_update_mem _ _ _ _ hnd hm
  · exact getAttr_update_mem _ _ _ _ hnd hm
  · unfold System
    split_ifs <;> exact getAttr_update_mem _ _ _ _ hnd hm
  · unfold Person
    split_ifs <;> exact getAttr_update_mem _ _ _ _ hnd hm
  · exact getAttr_update_mem _ _ _ _ hnd hm
  · unfold Relationship
    split_ifs <;> exact getAttr_update_mem _ _ _ _ hnd hm

/-- C6 (witness): a concrete override replacing the fill color. -/
theorem c6_overrides_witness :
    getAttr (Container "N" "T" "D" [("fillcolor", "red")]) "fillcolor" =
      some "red" ∧
    getAttr (System "N" "D" true [("fillcolor", "red")]) "fillcolor" =
      some "red" :=
  ⟨(c6_overrides "N" "T" "D" true [("fillcolor", "red")] "fillcolor" "red"
      (by decide) (by decide)).1,
   (c6_overrides "N" "T" "D" true [("fillcolor", "red")] "fillcolor" "red"
      (by decide) (by decide)).2.2.1⟩

/-- C7: a `System` with an empty description and the external flag
collapses to width 2 and height 1, with gray fill and the category key
"External System" in its label; with a non-empty description the size is
the fixed 2.6 by 1.6. -/
theorem c7_system_collapse (name d : String) (hd : d ≠ "") :
    getAttr (System name "" true []) "width" = some "2" ∧
    getAttr (System name "" true []) "height" = some "1" ∧
    getAttr (System name "" true []) "fillcolor" = some "gray60" ∧
    getAttr (System name "" true []) "label" =
      some (formatNodeLabel name "External System" "") ∧
    getAttr (System name d true []) "width" = some "2.6" ∧
    getAttr (System name d true []) "height" = some "1.6" := by
  refine ⟨rfl, rfl, rfl, rfl, ?_, ?_⟩ <;>
    simp [System, hd, update, setAttr, getAttr, List.find?]

/-- C7 (witness): the spec's example `System("Billing", external=True)`. -/
theorem c7_system_collapse_witness :
    getAttr (System "Billing" "" true []) "width" = some "2" ∧
    getAttr (System "Billing" "" true []) "height" = some "1" ∧
    getAttr (System "Billing" "" true []) "fillcolor" = some "gray60" ∧
    getAttr (System "Billing" "" true []) "label" =
      some (formatNodeLabel "Billing" "External System" "") ∧
    getAttr (System "Billing" "has a description" true []) "width" =
      some "2.6" ∧
    getAttr (System "Billing" "has a description" true []) "height" =
      some "1.6" :=
  c7_system_collapse "Billing" "has a description" (by decide)

/-- C8: the category key embeds the technology exactly when it is
non-empty, and the "External" prefix appears in `System`/`Person` keys
exactly when the external flag is set; the spec's example database has key
"Database: Postgres", cylinder shape and fixed size 2.6 by 1.6. -/
theorem c8_category_keys (name tech d : String) (htech : tech ≠ "") :
    getAttr (Container name tech d []) "label" =
      some (formatNodeLabel name ("Container: " ++ tech) d) ∧
    getAttr (Container name "" d []) "label" =
      some (formatNodeLabel name "Container" d) ∧
    getAttr (Database name tech d []) "label" =
      some (formatNodeLabel name ("Database: " ++ tech) d) ∧
    getAttr (Database name "" d []) "label" =
      some (formatNodeLabel name "Database" d) ∧
    (∀ ext : Bool,
      getAttr (System name d ext []) "label" =
        some (formatNodeLabel name
          (if ext then "External System" else "System") d) ∧
      getAttr (Person name d ext []) "label" =
        some (formatNodeLabel name
          (if ext then "External Person" else "Person") d) ∧
      startsWithB (if ext then "External System" else "System")
        "External" = ext ∧
      startsWithB (if ext then "External Person" else "Person")
        "External" = ext) ∧
    getAttr (Database "Orders DB" "Postgres" "" []) "label" =
      some (formatNodeLabel "Orders DB" "Database: Postgres" "") ∧
    getAttr (Database "Orders DB" "Postgres" "" []) "shape" =
      some "cylinder" ∧
    getAttr (Database "Orders DB" "Postgres" "" []) "width" = some "2.6" ∧
    getAttr (Database "Orders DB" "Postgres" "" []) "height" =
      some "1.6" ∧
    getAttr (Database "Orders DB" "Postgres" "" []) "fixedsize" =
      some "true" := by
  refine ⟨?_, rfl, ?_, rfl, ?_, by decide, by decide, by decide,
    by decide, by decide⟩
  · simp [Container, htech, update, getAttr, List.find?]
  · simp [Database, htech, update, getAttr, List.find?]
  · intro ext
    cases ext <;> by_cases hd : d = "" <;>
      refine ⟨?_, ?_, by decide, by decide⟩ <;>
      simp [System, Person, hd, update, setAttr, getAttr, List.find?]

/-- C8 (witness): a concrete non-empty technology. -/
theorem c8_category_keys_witness :
    getAttr (Container "API" "Go" "" []) "label" =
      some (formatNodeLabel "API" ("Container: " ++ "Go") "") ∧
    getAttr (Database "Orders DB" "Postgres" "" []) "shape" =
      some "cylinder" :=
  ⟨(c8_category_keys "API" "Go" "" (by decide)).1,
   (c8_category_keys "API" "Go" "" (by decide)).2.2.2.2.2.2.1⟩

/-- C9: without a caller override, `Database` sets no `labelloc` at all,
while `Container`, `System` and `Person` all set `labelloc` to "c". -/
theorem c9_labelloc (name tech d : String) (ext : Bool) (kwargs : Attrs)
    (h : "labelloc" ∉ keysOf kwargs) :
    getAttr (Database name tech d kwargs) "labelloc" = none ∧
    getAttr (Container name tech d kwargs) "labelloc" = some "c" ∧
    getAttr (System name d ext kwargs) "labelloc" = some "c" ∧
    getAttr (Person name d ext kwargs) "labelloc" = some "c" := by
  refine ⟨?_, ?_, ?_, ?_⟩
  · unfold Database
    rw [getAttr_update_notMem _ _ _ h]
    rfl
  · unfold Container
    rw [getAttr_update_notMem _ _ _ h]
    rfl
  · unfold System
    split_ifs <;> exact (getAttr_update_notMem _ _ _ h).trans rfl
  · unfold Person
    split_ifs <;> exact (getAttr_update_notMem _ _ _ h).trans rfl

/-- C9 (witness): concrete calls with an unrelated override. -/
theorem c9_labelloc_witness :
    getAttr (Database "D" "T" "x" [("fillcolor", "red")]) "labelloc" =
      none ∧
    getAttr (Container "C" "T" "x" [("fillcolor", "red")]) "labelloc" =
      some "c" ∧
    getAttr (System "S" "x" false [("fillcolor", "red")]) "labelloc" =
      some "c" ∧
    getAttr (Person "P" "x" false [("fillcolor", "red")]) "labelloc" =
      some "c" :=
  c9_labelloc "D" "T" "x" false [("fillcolor", "red")] (by decide)

/-- C10: `SystemBoundary` passes the raw, unescaped name as the cluster
identifier, while only the label entry of the attribute bundle receives
the escaped name; a caller-supplied label override replaces the escaped
name but the identifier is always the original name. -/
theorem c10_boundary (name : String) (kwargs : Attrs) (v : String) :
    (SystemBoundary name kwargs).clusterName = name ∧
    ("label" ∉ keysOf kwargs →
      getAttr (SystemBoundary name kwargs).graphAttr "label" =
        some (htmlEscape name)) ∧
    ((keysOf kwargs).Nodup → ("label", v) ∈ kwargs →
      getAttr (SystemBoundary name kwargs).graphAttr "label" = some v) := by
  refine ⟨rfl, ?_, ?_⟩
  · intro h
    unfold SystemBoundary
    rw [getAttr_update_notMem _ _ _ h]
    rfl
  · intro hnd hm
    exact getAttr_update_mem _ _ _ _ hnd hm

/-- C10 (witness): a name with markup-sensitive characters is escaped only
in the label, and a label override wins, while the identifier stays raw. -/
theorem c10_boundary_witness :
    (SystemBoundary "A<B" []).clusterName = "A<B" ∧
    getAttr (SystemBoundary "A<B" []).graphAttr "label" =
      some (htmlEscape "A<B") ∧
    (SystemBoundary "A<B" [("label", "X")]).clusterName = "A<B" ∧
    getAttr (SystemBoundary "A<B" [("label", "X")]).graphAttr "label" =
      some "X" :=
  ⟨(c10_boundary "A<B" [] "X").1,
   (c10_boundary "A<B" [] "X").2.1 (by decide),
   (c10_boundary "A<B" [("label", "X")] "X").1,
   (c10_boundary "A<B" [("label", "X")] "X").2.2 (by decide) (by decide)⟩

end C4
